import Mathlib

/-!
Shallow embedding of the voxel-page core from `src/pages/Index.tsx`:
the block data model, the world mutation handlers, the camera-drag
update, the depth sort used before rendering, and the per-block
3D-to-2D projector.  Numeric UI state (camera angles, drag deltas) is
modelled over ℚ; block coordinates over ℤ; the projector, which uses
trigonometry, over ℝ.
-/

namespace Voxel

/-- Block materials, mirroring the `BlockType` union in the source
(`grass | dirt | stone | wood | leaves | planks | air`). -/
inductive BlockType where
  | grass
  | dirt
  | stone
  | wood
  | leaves
  | planks
  | air
deriving DecidableEq, Repr

/-- A placed block, mirroring the `Block` interface: a material plus
integer grid coordinates. -/
structure Block where
  type : BlockType
  x : ℤ
  y : ℤ
  z : ℤ
deriving DecidableEq, Repr

/-- The `BLOCK_SIZE` constant (tile size in pixels). -/
def BLOCK_SIZE : ℤ := 40

/-- The `WORLD_SIZE` constant (grid extent). -/
def WORLD_SIZE : ℤ := 8

/-- The click handler `handleBlockClick(x, y, z, isRightClick)`.
With a right click and a selected material other than `air` it appends
a block of the selected material one unit above the clicked cell;
otherwise it filters out every block whose coordinates equal the
clicked triple. -/
def handleBlockClick (w : List Block) (selected : BlockType)
    (x y z : ℤ) (isRightClick : Bool) : List Block :=
  if isRightClick && (selected != BlockType.air) then
    w ++ [⟨selected, x, y + 1, z⟩]
  else
    w.filter (fun b => !(b.x == x && b.y == y && b.z == z))

/-- The abstract store operation `addBlock(type, x, y, z)`: append a
block at the given coordinates (the append performed by the right-click
branch of `handleBlockClick`). -/
def addBlock (w : List Block) (t : BlockType) (x y z : ℤ) : List Block :=
  w ++ [⟨t, x, y, z⟩]

/-- The abstract store operation `removeBlockAt(x, y, z)`: the filter
performed by the left-click branch of `handleBlockClick`. -/
def removeBlockAt (w : List Block) (x y z : ℤ) : List Block :=
  w.filter (fun b => !(b.x == x && b.y == y && b.z == z))

/-- Maximum y in column (x, z), floored at 0: the source computes
`Math.max(...world.filter(b => b.x === cx && b.z === cz).map(b => b.y), 0)`. -/
def colMaxY (w : List Block) (x z : ℤ) : ℤ :=
  (((w.filter (fun b => b.x == x && b.z == z)).map Block.y)).foldr max 0

/-- The build action specialised to a column: compute the column's
`colMaxY` and right-click at that height, as the build button does with
`handleBlockClick(centerX, maxY, centerZ, true)`. -/
def placeOnTopOf (w : List Block) (selected : BlockType) (x z : ℤ) : List Block :=
  handleBlockClick w selected x (colMaxY w x z) z true

/-- The build button body: `placeOnTopOf` at the world-center column
`(Math.floor(WORLD_SIZE/2), Math.floor(WORLD_SIZE/2)) = (4, 4)`. -/
def buildClick (w : List Block) (selected : BlockType) : List Block :=
  placeOnTopOf w selected (WORLD_SIZE / 2) (WORLD_SIZE / 2)

/-- The destroy button body: find the first block in the world with
`x = 4`, `z = 4` and `y > 0`; if one exists, left-click it (remove);
otherwise do nothing. -/
def destroyClick (w : List Block) (selected : BlockType) : List Block :=
  match w.find? (fun b => b.x == WORLD_SIZE / 2 && b.z == WORLD_SIZE / 2 && b.y > 0) with
  | some b => handleBlockClick w selected b.x b.y b.z false
  | none => w

/-- Truncation toward zero, as JavaScript division underlying the `%`
operator rounds: floor for nonnegative arguments, ceiling for negative
ones. -/
def jsTrunc (q : ℚ) : ℤ :=
  if 0 ≤ q then ⌊q⌋ else ⌈q⌉

/-- The JavaScript remainder operator `a % n` on finite numbers:
`a - n * trunc(a / n)`.  The result carries the sign of the dividend
`a`. -/
def jsRem (a n : ℚ) : ℚ :=
  a - n * (jsTrunc (a / n) : ℚ)

/-- The pointer-move rotation update from `handlePointerMove`:
`x` becomes `Math.max(-90, Math.min(90, x + dy * 0.3))` and `y` becomes
`(y + dx * 0.3) % 360`.  The rotation is a pair (x component, y
component); `dx`, `dy` are the pointer deltas since the last sample. -/
def pointerMoveUpdate (rot : ℚ × ℚ) (dx dy : ℚ) : ℚ × ℚ :=
  (max (-90) (min 90 (rot.1 + dy * (3/10))),
   jsRem (rot.2 + dx * (3/10)) 360)

/-- Squared distance of a block from the world origin, the depth-sort
key `a.x*a.x + a.y*a.y + a.z*a.z`. -/
def dist2 (b : Block) : ℤ :=
  b.x * b.x + b.y * b.y + b.z * b.z

/-- The comparator order used by `sortedWorld`: the source comparator
returns `distB - distA`, so `a` may precede `b` exactly when
`dist2 b ≤ dist2 a` (descending squared distance). -/
def depthLE (a b : Block) : Bool :=
  dist2 b ≤ dist2 a

/-- The derived rendering order `sortedWorld`: a stable sort of a copy
of the world by descending squared distance from the origin
(`[...world].sort((a, b) => distB - distA)`; ECMAScript `Array.sort` is
a stable sort consistent with the comparator). -/
def sortedWorld (w : List Block) : List Block :=
  w.mergeSort depthLE

/-- Rendering derives `sortedWorld` from the stored world and leaves
the stored world itself untouched (the sort runs on the spread copy
`[...world]`). -/
def renderStep (w : List Block) : List Block × List Block :=
  (sortedWorld w, w)

/-- Initial world generation from the startup effect.  The calls to
`Math.random()` are modelled as parameters: `dirtAt x z` tells whether
the per-column draw satisfied `Math.random() > 0.7`, and `t1 t2 t3` are
the three random tree columns.  For each grid column (in loop order) a
grass tile at y = 0 and, when `dirtAt`, a dirt block at y = 1; then for
each tree column two wood blocks at y = 1, 2 and a leaves block at
y = 3. -/
def initialWorld (dirtAt : ℤ → ℤ → Bool) (t1 t2 t3 : ℤ × ℤ) : List Block :=
  ((List.range 8).flatMap fun x =>
    (List.range 8).flatMap fun z =>
      ⟨BlockType.grass, (x : ℤ), 0, (z : ℤ)⟩ ::
        (if dirtAt (x : ℤ) (z : ℤ) then [⟨BlockType.dirt, (x : ℤ), 1, (z : ℤ)⟩] else []))
  ++ ([t1, t2, t3].flatMap fun t =>
      [⟨BlockType.wood, t.1, 1, t.2⟩, ⟨BlockType.wood, t.1, 2, t.2⟩,
       ⟨BlockType.leaves, t.1, 3, t.2⟩])

/-- No block in a world has the `air` material. -/
def noAir (w : List Block) : Prop :=
  ∀ b ∈ w, b.type ≠ BlockType.air

/-- The projector `get3DPosition(x, y, z)` for a given camera rotation
(`rotx`, `roty` in degrees): convert the angles to radians, center the
world position, rotate in the x/z plane by the y-angle, then in the
resulting y/z plane by the x-angle, and return
`(x1 + 300, y1 + 300, Math.floor(1000 - z2))`.  The source computes
over IEEE doubles with `Math.cos`/`Math.sin`; the embedding idealises
the arithmetic over ℝ. -/
noncomputable def get3DPosition (rotx roty : ℝ) (x y z : ℤ) : ℝ × ℝ × ℤ :=
  let radX : ℝ := rotx * Real.pi / 180
  let radY : ℝ := roty * Real.pi / 180
  let cosX := Real.cos radX
  let sinX := Real.sin radX
  let cosY := Real.cos radY
  let sinY := Real.sin radY
  let centerOffset : ℝ := ((WORLD_SIZE : ℝ) * (BLOCK_SIZE : ℝ)) / 2
  let px : ℝ := (x : ℝ) * (BLOCK_SIZE : ℝ) - centerOffset
  let py : ℝ := -((y : ℝ) * (BLOCK_SIZE : ℝ))
  let pz : ℝ := (z : ℝ) * (BLOCK_SIZE : ℝ) - centerOffset
  let x1 := px * cosY + pz * sinY
  let z1 := -px * sinY + pz * cosY
  let y1 := py * cosX - z1 * sinX
  let z2 := py * sinX + z1 * cosX
  (x1 + 300, y1 + 300, ⌊(1000 : ℝ) - z2⌋)

/-- Degree-to-radian conversion used by the projector. -/
noncomputable def degToRad (d : ℝ) : ℝ :=
  d * Real.pi / 180

/-- Rotation in a coordinate plane by an angle, in the matrix
orientation the yaw step uses: `(a, b)` maps to
`(a cos θ + b sin θ, -a sin θ + b cos θ)`. -/
noncomputable def yawRot (ang : ℝ) (p : ℝ × ℝ) : ℝ × ℝ :=
  (p.1 * Real.cos ang + p.2 * Real.sin ang,
   -(p.1) * Real.sin ang + p.2 * Real.cos ang)

/-- Rotation in a coordinate plane by an angle, in the matrix
orientation the pitch step uses: `(a, b)` maps to
`(a cos θ - b sin θ, a sin θ + b cos θ)`. -/
noncomputable def pitchRot (ang : ℝ) (p : ℝ × ℝ) : ℝ × ℝ :=
  (p.1 * Real.cos ang - p.2 * Real.sin ang,
   p.1 * Real.sin ang + p.2 * Real.cos ang)

/-- The projection pipeline exactly as the spec words it: center the
world position (`px = x*S - C`, `py = -y*S`, `pz = z*S - C` with S the
tile size and C half the total grid extent), yaw-rotate `(px, pz)` by
the y-angle, pitch-rotate the resulting `(py, z1)` by the x-angle,
translate by the fixed viewport offset, and keep the final depth
coordinate `z2` (third component) un-floored. -/
noncomputable def specProject (rotx roty : ℝ) (x y z : ℤ) : ℝ × ℝ × ℝ :=
  let S : ℝ := (BLOCK_SIZE : ℝ)
  let C : ℝ := ((WORLD_SIZE : ℝ) * (BLOCK_SIZE : ℝ)) / 2
  let px : ℝ := (x : ℝ) * S - C
  let py : ℝ := -((y : ℝ) * S)
  let pz : ℝ := (z : ℝ) * S - C
  let q1 := yawRot (degToRad roty) (px, pz)
  let q2 := pitchRot (degToRad rotx) (py, q1.2)
  (q1.1 + 300, q2.1 + 300, q2.2)

lemma jsRem_bounds_of_nonneg {a n : ℚ} (hn : 0 < n) (ha : 0 ≤ a) :
    0 ≤ jsRem a n ∧ jsRem a n < n := by
  have hq : 0 ≤ a / n := div_nonneg ha hn.le
  have heq : jsRem a n = n * Int.fract (a / n) := by
    rw [jsRem, jsTrunc, if_pos hq, Int.fract]
    field_simp
  constructor
  · rw [heq]
    exact mul_nonneg hn.le (Int.fract_nonneg _)
  · rw [heq]
    calc n * Int.fract (a / n) < n * 1 :=
          (mul_lt_mul_left hn).mpr (Int.fract_lt_one _)
    _ = n := mul_one n

lemma jsRem_bounds_of_neg {a n : ℚ} (hn : 0 < n) (ha : a < 0) :
    -n < jsRem a n ∧ jsRem a n ≤ 0 := by
  have hq : ¬(0 ≤ a / n) := not_le.mpr (div_neg_of_neg_of_pos ha hn)
  have heq : jsRem a n = n * (a / n - ⌈a / n⌉) := by
    rw [jsRem, jsTrunc, if_neg hq]
    field_simp
  constructor
  · rw [heq]
    have h1 : (-1 : ℚ) < a / n - ⌈a / n⌉ := by
      have := Int.ceil_lt_add_one (a / n)
      linarith
    calc -n = n * (-1) := by ring
    _ < n * (a / n - ⌈a / n⌉) := (mul_lt_mul_left hn).mpr h1
  · rw [heq]
    have h2 : a / n - ⌈a / n⌉ ≤ 0 := sub_nonpos.mpr (Int.le_ceil _)
    exact mul_nonpos_of_nonneg_of_nonpos hn.le h2

lemma removePred_true_iff {b : Block} {x y z : ℤ} :
    (!(b.x == x && b.y == y && b.z == z)) = true
      ↔ ¬(b.x = x ∧ b.y = y ∧ b.z = z) := by
  simp only [Bool.not_eq_true', Bool.and_eq_false_iff, beq_eq_false_iff_ne, ne_eq,
    Bool.and_eq_true, beq_iff_eq, decide_eq_true_eq]
  tauto

lemma mem_removeBlockAt {w : List Block} {x y z : ℤ} {b : Block} :
    b ∈ removeBlockAt w x y z ↔ b ∈ w ∧ ¬(b.x = x ∧ b.y = y ∧ b.z = z) := by
  simp only [removeBlockAt, List.mem_filter, Bool.not_eq_true', and_congr_right_iff]
  intro _
  simp only [Bool.and_eq_false_iff, beq_eq_false_iff_ne, ne_eq,
    Bool.and_eq_true, beq_iff_eq, decide_eq_true_eq]
  tauto

lemma removeBlockAt_sublist (w : List Block) (x y z : ℤ) :
    (removeBlockAt w x y z).Sublist w :=
  List.filter_sublist w

lemma handleBlockClick_false_eq (w : List Block) (sel : BlockType) (x y z : ℤ) :
    handleBlockClick w sel x y z false = removeBlockAt w x y z := by
  simp [handleBlockClick, removeBlockAt]

lemma handleBlockClick_true_eq (w : List Block) {sel : BlockType} (x y z : ℤ)
    (h : sel ≠ BlockType.air) :
    handleBlockClick w sel x y z true = w ++ [⟨sel, x, y + 1, z⟩] := by
  have hb : (sel != BlockType.air) = true := bne_iff_ne.mpr h
  simp [handleBlockClick, hb]

lemma le_foldrMax (ys : List ℤ) : ∀ y ∈ ys, y ≤ ys.foldr max 0 := by
  induction ys with
  | nil => intro y hy; cases hy
  | cons a t ih =>
      intro y hy
      rcases List.mem_cons.mp hy with rfl | ht
      · exact le_max_left _ _
      · exact le_trans (ih y ht) (le_max_right _ _)

lemma foldrMax_nonneg (ys : List ℤ) : 0 ≤ ys.foldr max 0 := by
  induction ys with
  | nil => exact le_refl 0
  | cons a t ih => exact le_trans ih (le_max_right _ _)

lemma foldrMax_mem_or_zero (ys : List ℤ) :
    ys.foldr max 0 ∈ ys ∨ ys.foldr max 0 = 0 := by
  induction ys with
  | nil => exact Or.inr rfl
  | cons a t ih =>
      rcases le_total a (t.foldr max 0) with h | h
      · rcases ih with hm | h0
        · exact Or.inl (List.mem_cons.mpr (Or.inr (by rwa [List.foldr_cons, max_eq_right h])))
        · exact Or.inr (by rw [List.foldr_cons, max_eq_right h, h0])
      · exact Or.inl (List.mem_cons.mpr (Or.inl (by rw [List.foldr_cons, max_eq_left h])))

lemma noAir_handleBlockClick {w : List Block} (sel : BlockType) (x y z : ℤ)
    (rc : Bool) (hw : noAir w) : noAir (handleBlockClick w sel x y z rc) := by
  intro b hb
  by_cases hcond : (rc && (sel != BlockType.air)) = true
  · rw [handleBlockClick, if_pos hcond] at hb
    rcases List.mem_append.mp hb with hl | hr
    · exact hw b hl
    · have hsel : sel ≠ BlockType.air :=
        bne_iff_ne.mp (Bool.and_elim_right hcond)
      rcases List.mem_singleton.mp hr with rfl
      exact hsel
  · rw [handleBlockClick, if_neg hcond] at hb
    exact hw b ((List.filter_sublist w).mem hb)

lemma noAir_destroyClick {w : List Block} (sel : BlockType) (hw : noAir w) :
    noAir (destroyClick w sel) := by
  rw [destroyClick]
  split
  · exact noAir_handleBlockClick _ _ _ _ _ hw
  · exact hw

/-- C4: for every starting rotation with x-component in [-90, 90] and
every pointer-move delta, the x-component produced by the drag update
(`x + dy * 0.3`, clamped) lies in [-90, 90]; in particular, starting
from x = 85 with dy = 100 the result is exactly 90. -/
theorem pointerMove_x_clamped (rot : ℚ × ℚ) (dx dy : ℚ)
    (_hx1 : -90 ≤ rot.1) (_hx2 : rot.1 ≤ 90) :
    (-90 ≤ (pointerMoveUpdate rot dx dy).1 ∧ (pointerMoveUpdate rot dx dy).1 ≤ 90)
    ∧ (pointerMoveUpdate (85, 0) 0 100).1 = 90 := by
  refine ⟨⟨le_max_left _ _, ?_⟩, ?_⟩
  · exact max_le (by norm_num) (min_le_left _ _)
  · norm_num [pointerMoveUpdate]

/-- Witness for C4 at the concrete rotation (30, 45) with deltas
(100, 0). -/
theorem pointerMove_x_clamped_witness :
    (-90 ≤ (pointerMoveUpdate ((30 : ℚ), (45 : ℚ)) 100 0).1
      ∧ (pointerMoveUpdate ((30 : ℚ), (45 : ℚ)) 100 0).1 ≤ 90)
    ∧ (pointerMoveUpdate (85, 0) 0 100).1 = 90 :=
  pointerMove_x_clamped (30, 45) 100 0 (by norm_num) (by norm_num)

/-- C8: the drag update adds `dx * 0.3` to the y rotation and
`dy * 0.3` to the x rotation (sensitivity k = 0.3), then clamps x to
[-90, 90] (below −90 it returns −90, above 90 it returns 90, in range
it is exact) and wraps y modulo 360 (the result differs from
`y + dx * 0.3` by an integer multiple of 360); in particular, starting
from (x, y) = (30, 45) with deltas (dx, dy) = (100, 0) the result is
(30, 75). -/
theorem pointerMove_update_formula (rot : ℚ × ℚ) (dx dy : ℚ) :
    (rot.1 + dy * (3/10) < -90 → (pointerMoveUpdate rot dx dy).1 = -90)
    ∧ (-90 ≤ rot.1 + dy * (3/10) → rot.1 + dy * (3/10) ≤ 90 →
        (pointerMoveUpdate rot dx dy).1 = rot.1 + dy * (3/10))
    ∧ (90 < rot.1 + dy * (3/10) → (pointerMoveUpdate rot dx dy).1 = 90)
    ∧ (∃ m : ℤ, (pointerMoveUpdate rot dx dy).2 = rot.2 + dx * (3/10) - 360 * m)
    ∧ pointerMoveUpdate (30, 45) 100 0 = (30, 75) := by
  refine ⟨?_, ?_, ?_, ?_, ?_⟩
  · intro h
    have h1 : min 90 (rot.1 + dy * (3/10)) = rot.1 + dy * (3/10) :=
      min_eq_right (by linarith)
    simp only [pointerMoveUpdate, h1]
    exact max_eq_left (by linarith)
  · intro h1 h2
    simp only [pointerMoveUpdate, min_eq_right h2]
    exact max_eq_right h1
  · intro h
    have h1 : min 90 (rot.1 + dy * (3/10)) = 90 := min_eq_left (by linarith)
    simp only [pointerMoveUpdate, h1]
    exact max_eq_right (by norm_num)
  · exact ⟨jsTrunc ((rot.2 + dx * (3/10)) / 360), by
      simp only [pointerMoveUpdate, jsRem]⟩
  · norm_num [pointerMoveUpdate, jsRem, jsTrunc]

/-- Witness for C8: at rotation (30, 45) with deltas (100, 0) the
in-range clamp case applies and the x component equals
`30 + 0 * 0.3`. -/
theorem pointerMove_update_formula_witness :
    (pointerMoveUpdate ((30 : ℚ), (45 : ℚ)) 100 0).1
      = ((30 : ℚ), (45 : ℚ)).1 + 0 * (3/10) :=
  (pointerMove_update_formula (30, 45) 100 0).2.1 (by norm_num) (by norm_num)

/-- Counterexample for C3 as stated: starting from the page's initial
y rotation 45 with pointer delta dx = −1000, the updated y rotation is
−255, which does not lie in [0, 360). -/
theorem pointerMove_y_range_counterexample :
    (pointerMoveUpdate ((30 : ℚ), (45 : ℚ)) (-1000) 0).2 = -255
    ∧ ¬(0 ≤ (pointerMoveUpdate ((30 : ℚ), (45 : ℚ)) (-1000) 0).2) := by
  have h1 : (pointerMoveUpdate ((30 : ℚ), (45 : ℚ)) (-1000) 0).2 = -255 := by
    norm_num [pointerMoveUpdate, jsRem, jsTrunc]
  rw [h1]
  norm_num

/-- C3 (amended): for every starting y rotation and every delta dx,
the y rotation produced by the drag update (`y + dx * 0.3` passed
through the JavaScript remainder by 360, which keeps the sign of its
dividend) lies in the open interval (−360, 360); it lies in [0, 360)
whenever the pre-wrap value `y + dx * 0.3` is nonnegative. -/
theorem pointerMove_y_wrap_range (rot : ℚ × ℚ) (dx dy : ℚ) :
    (-360 < (pointerMoveUpdate rot dx dy).2 ∧ (pointerMoveUpdate rot dx dy).2 < 360)
    ∧ (0 ≤ rot.2 + dx * (3/10) →
        0 ≤ (pointerMoveUpdate rot dx dy).2 ∧ (pointerMoveUpdate rot dx dy).2 < 360) := by
  have h360 : (0 : ℚ) < 360 := by norm_num
  rcases le_or_lt 0 (rot.2 + dx * (3/10)) with ha | ha
  · have h := jsRem_bounds_of_nonneg h360 ha
    exact ⟨⟨by simpa [pointerMoveUpdate] using lt_of_lt_of_le (by norm_num) h.1,
      by simpa [pointerMoveUpdate] using h.2⟩, fun _ =>
      ⟨by simpa [pointerMoveUpdate] using h.1, by simpa [pointerMoveUpdate] using h.2⟩⟩
  · have h := jsRem_bounds_of_neg h360 ha
    exact ⟨⟨by simpa [pointerMoveUpdate] using h.1,
      by simpa [pointerMoveUpdate] using lt_of_le_of_lt h.2 (by norm_num)⟩,
      fun hc => absurd hc (not_le.mpr ha)⟩

/-- Witness for C3 (amended) at rotation (30, 45) with dx = 100, with
the nonnegativity hypothesis of the second part discharged. -/
theorem pointerMove_y_wrap_range_witness :
    (-360 < (pointerMoveUpdate ((30 : ℚ), (45 : ℚ)) 100 0).2
      ∧ (pointerMoveUpdate ((30 : ℚ), (45 : ℚ)) 100 0).2 < 360)
    ∧ (0 ≤ (pointerMoveUpdate ((30 : ℚ), (45 : ℚ)) 100 0).2
        ∧ (pointerMoveUpdate ((30 : ℚ), (45 : ℚ)) 100 0).2 < 360) :=
  ⟨(pointerMove_y_wrap_range (30, 45) 100 0).1,
   (pointerMove_y_wrap_range (30, 45) 100 0).2 (by norm_num)⟩

/-- C7: removing at (x, y, z) right after adding a block there yields a
world with no block at (x, y, z), whatever the world held before; in
particular a world whose only block sits at (2, 0, 3) becomes empty
under `removeBlockAt(2, 0, 3)`. -/
theorem removeBlockAt_addBlock_roundtrip (w : List Block) (t : BlockType)
    (x y z : ℤ) :
    (∀ b ∈ removeBlockAt (addBlock w t x y z) x y z,
      ¬(b.x = x ∧ b.y = y ∧ b.z = z))
    ∧ ∀ t2 : BlockType, removeBlockAt [⟨t2, 2, 0, 3⟩] 2 0 3 = [] := by
  constructor
  · intro b hb
    exact (mem_removeBlockAt.mp hb).2
  · intro t2
    rfl

/-- Witness for C7: the non-matching block at (9, 9, 9) survives the
round trip on a concrete world, and its coordinates indeed differ from
the removed triple. -/
theorem removeBlockAt_addBlock_roundtrip_witness :
    ¬((⟨BlockType.stone, 9, 9, 9⟩ : Block).x = 0
      ∧ (⟨BlockType.stone, 9, 9, 9⟩ : Block).y = 0
      ∧ (⟨BlockType.stone, 9, 9, 9⟩ : Block).z = 0) :=
  (removeBlockAt_addBlock_roundtrip [⟨BlockType.stone, 9, 9, 9⟩]
      BlockType.stone 0 0 0).1 ⟨BlockType.stone, 9, 9, 9⟩ (by decide)

/-- C6: `removeBlockAt(x, y, z)` removes every block whose coordinates
equal the triple and leaves the rest unchanged (the result is a
sublist of the world and keeps every non-matching block with its
multiplicity); with no matching block it is a silent no-op, and the
destroy action is likewise a no-op when no block with x = z = 4 and
y > 0 exists. -/
theorem removeBlockAt_spec (w : List Block) (sel : BlockType) (x y z : ℤ) :
    (∀ b ∈ removeBlockAt w x y z, ¬(b.x = x ∧ b.y = y ∧ b.z = z))
    ∧ (removeBlockAt w x y z).Sublist w
    ∧ (∀ b : Block, ¬(b.x = x ∧ b.y = y ∧ b.z = z) →
        (removeBlockAt w x y z).count b = w.count b)
    ∧ ((∀ b ∈ w, ¬(b.x = x ∧ b.y = y ∧ b.z = z)) → removeBlockAt w x y z = w)
    ∧ (w.find? (fun b => b.x == WORLD_SIZE / 2 && b.z == WORLD_SIZE / 2 && b.y > 0)
          = none → destroyClick w sel = w) := by
  refine ⟨?_, removeBlockAt_sublist w x y z, ?_, ?_, ?_⟩
  · intro b hb
    exact (mem_removeBlockAt.mp hb).2
  · intro b hnb
    exact List.count_filter (removePred_true_iff.mpr hnb)
  · intro hall
    exact List.filter_eq_self.mpr fun b hb => removePred_true_iff.mpr (hall b hb)
  · intro hf
    rw [destroyClick, hf]

/-- Witness for C6: on a world holding one grass block at the origin,
removing at (5, 5, 5) and destroying (no center block above ground)
are both no-ops. -/
theorem removeBlockAt_spec_witness :
    removeBlockAt [⟨BlockType.grass, 0, 0, 0⟩] 5 5 5 = [⟨BlockType.grass, 0, 0, 0⟩]
    ∧ destroyClick [⟨BlockType.grass, 0, 0, 0⟩] BlockType.grass
        = [⟨BlockType.grass, 0, 0, 0⟩] :=
  ⟨(removeBlockAt_spec [⟨BlockType.grass, 0, 0, 0⟩] BlockType.grass 5 5 5).2.2.2.1
      (by decide),
   (removeBlockAt_spec [⟨BlockType.grass, 0, 0, 0⟩] BlockType.grass 5 5 5).2.2.2.2
      (by decide)⟩

/-- Counterexample for C5 as stated: on a world whose single block in
column (0, 0) has y = −2, the build action inserts at y = 1 (the code
floors the column maximum at 0), not at 1 plus the column maximum
(which would be −1); and with `air` selected the action removes the
targeted block instead of appending one. -/
theorem placeOnTopOf_counterexample :
    placeOnTopOf [⟨BlockType.grass, 0, -2, 0⟩] BlockType.stone 0 0
      = [⟨BlockType.grass, 0, -2, 0⟩, ⟨BlockType.stone, 0, 1, 0⟩]
    ∧ (1 : ℤ) ≠ (-2) + 1
    ∧ placeOnTopOf [⟨BlockType.grass, 0, 0, 0⟩] BlockType.air 0 0 = [] := by
  exact ⟨by decide, by decide, by decide⟩

/-- C5 (amended): for every world, column (x, z), and selected
material other than `air`, the build action appends exactly one block
of the selected material at y equal to 1 plus the column maximum
floored at 0 (`colMaxY`): the floored maximum bounds every block of
the column from above, is nonnegative, and is attained by some block
of the column unless it is the floor value 0; in particular, on a
world containing only a block at (0, 0, 0), building on column (0, 0)
with stone selected adds a stone block at (0, 1, 0). -/
theorem placeOnTopOf_spec (w : List Block) (sel : BlockType) (x z : ℤ)
    (hsel : sel ≠ BlockType.air) :
    placeOnTopOf w sel x z = w ++ [⟨sel, x, colMaxY w x z + 1, z⟩]
    ∧ (∀ b ∈ w, b.x = x → b.z = z → b.y ≤ colMaxY w x z)
    ∧ 0 ≤ colMaxY w x z
    ∧ ((∃ b ∈ w, b.x = x ∧ b.z = z ∧ b.y = colMaxY w x z) ∨ colMaxY w x z = 0)
    ∧ placeOnTopOf [⟨BlockType.stone, 0, 0, 0⟩] BlockType.stone 0 0
        = [⟨BlockType.stone, 0, 0, 0⟩, ⟨BlockType.stone, 0, 1, 0⟩] := by
  refine ⟨?_, ?_, ?_, ?_, by decide⟩
  · exact handleBlockClick_true_eq w x (colMaxY w x z) z hsel
  · intro b hb hbx hbz
    have hbf : b ∈ w.filter (fun b => b.x == x && b.z == z) :=
      List.mem_filter.mpr ⟨hb, by simp [hbx, hbz]⟩
    exact le_foldrMax _ b.y (List.mem_map.mpr ⟨b, hbf, rfl⟩)
  · exact foldrMax_nonneg _
  · rcases foldrMax_mem_or_zero
        ((w.filter (fun b => b.x == x && b.z == z)).map Block.y) with hm | h0
    · left
      obtain ⟨b, hbf, hby⟩ := List.mem_map.mp hm
      have hbw := List.mem_filter.mp hbf
      have hxz : b.x = x ∧ b.z = z := by
        simpa using hbw.2
      exact ⟨b, hbw.1, hxz.1, hxz.2, hby⟩
    · right
      exact h0

/-- Witness for C5 (amended): the selected material `stone` is not
`air`, and building on column (0, 0) of the one-block world appends a
stone block one above the floored column maximum. -/
theorem placeOnTopOf_spec_witness :
    BlockType.stone ≠ BlockType.air
    ∧ placeOnTopOf [⟨BlockType.stone, 0, 0, 0⟩] BlockType.stone 0 0
        = [⟨BlockType.stone, 0, 0, 0⟩]
          ++ [⟨BlockType.stone, 0, colMaxY [⟨BlockType.stone, 0, 0, 0⟩] 0 0 + 1, 0⟩] :=
  ⟨by decide,
   (placeOnTopOf_spec [⟨BlockType.stone, 0, 0, 0⟩] BlockType.stone 0 0 (by decide)).1⟩

/-- C9: no block ever has the `air` material: initial generation (for
any random draws) produces only grass, dirt, wood and leaves blocks;
the click handler preserves the invariant (its add branch appends the
selected material only when it is not `air`, and with `air` selected a
right click removes the clicked block instead of placing); and the
build and destroy actions preserve it as well. -/
theorem noAir_invariant :
    (∀ (dirtAt : ℤ → ℤ → Bool) (t1 t2 t3 : ℤ × ℤ),
        noAir (initialWorld dirtAt t1 t2 t3))
    ∧ (∀ (w : List Block) (sel : BlockType) (x y z : ℤ) (rc : Bool),
        noAir w → noAir (handleBlockClick w sel x y z rc))
    ∧ (∀ (w : List Block) (x y z : ℤ),
        handleBlockClick w BlockType.air x y z true = removeBlockAt w x y z)
    ∧ (∀ (w : List Block) (sel : BlockType), noAir w →
        noAir (buildClick w sel) ∧ noAir (destroyClick w sel)) := by
  refine ⟨?_, ?_, ?_, ?_⟩
  · intro dirtAt t1 t2 t3 b hb
    rw [initialWorld] at hb
    rcases List.mem_append.mp hb with h1 | h2
    · obtain ⟨xc, _, hb1⟩ := List.mem_flatMap.mp h1
      obtain ⟨zc, _, hb2⟩ := List.mem_flatMap.mp hb1
      rcases List.mem_cons.mp hb2 with rfl | hb3
      · simp
      · by_cases hd : dirtAt (xc : ℤ) (zc : ℤ)
        · rw [if_pos hd] at hb3
          rcases List.mem_singleton.mp hb3 with rfl
          simp
        · rw [if_neg hd] at hb3
          cases hb3
    · obtain ⟨t, _, hb1⟩ := List.mem_flatMap.mp h2
      simp only [List.mem_cons, List.mem_singleton, List.not_mem_nil, or_false] at hb1
      rcases hb1 with rfl | rfl | rfl <;> simp
  · intro w sel x y z rc hw
    exact noAir_handleBlockClick sel x y z rc hw
  · intro w x y z
    simp [handleBlockClick, removeBlockAt]
  · intro w sel hw
    exact ⟨noAir_handleBlockClick sel _ _ _ true hw, noAir_destroyClick sel hw⟩

/-- Witness for C9: the no-air invariant holds of the empty world and
is carried through a concrete click that places a stone block. -/
theorem noAir_invariant_witness :
    noAir (handleBlockClick [] BlockType.stone 0 0 0 true)
    ∧ noAir (buildClick [] BlockType.stone)
    ∧ noAir (destroyClick [] BlockType.stone) :=
  ⟨noAir_invariant.2.1 [] BlockType.stone 0 0 0 true
      (fun b hb => absurd hb (List.not_mem_nil b)),
   (noAir_invariant.2.2.2 [] BlockType.stone
      (fun b hb => absurd hb (List.not_mem_nil b))).1,
   (noAir_invariant.2.2.2 [] BlockType.stone
      (fun b hb => absurd hb (List.not_mem_nil b))).2⟩

/-- C10: rendering derives the depth-sorted view from a copy and never
changes the stored world (iterating the render step any number of
times is the identity on the world); an add appends exactly one block
at the end leaving the existing prefix unchanged; and a remove yields
exactly the insertion-ordered sequence of the surviving blocks: the
result is a sublist of the world (relative order of the rest
preserved), no block matching the removed triple survives, and every
non-matching block keeps its multiplicity — together these determine
the result uniquely. -/
theorem world_frame_properties (w : List Block) (n : ℕ) (sel : BlockType)
    (x y z : ℤ) :
    (fun v => (renderStep v).2)^[n] w = w
    ∧ (sel ≠ BlockType.air →
        (handleBlockClick w sel x y z true).take w.length = w
        ∧ (handleBlockClick w sel x y z true).length = w.length + 1)
    ∧ (handleBlockClick w sel x y z false).Sublist w
    ∧ (∀ b ∈ handleBlockClick w sel x y z false,
        ¬(b.x = x ∧ b.y = y ∧ b.z = z))
    ∧ (∀ b : Block, ¬(b.x = x ∧ b.y = y ∧ b.z = z) →
        (handleBlockClick w sel x y z false).count b = w.count b) := by
  refine ⟨?_, ?_, ?_, ?_, ?_⟩
  · have hid : (fun v : List Block => (renderStep v).2) = id := rfl
    rw [hid, Function.iterate_id, id]
  · intro hsel
    rw [handleBlockClick_true_eq w x y z hsel]
    exact ⟨List.take_left w _, by simp⟩
  · rw [handleBlockClick_false_eq]
    exact removeBlockAt_sublist w x y z
  · intro b hb
    rw [handleBlockClick_false_eq] at hb
    exact (mem_removeBlockAt.mp hb).2
  · intro b hnb
    rw [handleBlockClick_false_eq]
    exact List.count_filter (removePred_true_iff.mpr hnb)

/-- Witness for C10 on a one-block world, two render iterations, a
stone add, and a remove at the non-matching triple (5, 5, 5): the
grass block survives in the result with its multiplicity and its
coordinates differ from the removed triple. -/
theorem world_frame_properties_witness :
    BlockType.stone ≠ BlockType.air
    ∧ (handleBlockClick [⟨BlockType.grass, 0, 0, 0⟩] BlockType.stone 5 5 5 true).take
        ([⟨BlockType.grass, 0, 0, 0⟩] : List Block).length = [⟨BlockType.grass, 0, 0, 0⟩]
    ∧ ¬((⟨BlockType.grass, 0, 0, 0⟩ : Block).x = 5
        ∧ (⟨BlockType.grass, 0, 0, 0⟩ : Block).y = 5
        ∧ (⟨BlockType.grass, 0, 0, 0⟩ : Block).z = 5)
    ∧ (handleBlockClick [⟨BlockType.grass, 0, 0, 0⟩] BlockType.stone 5 5 5 false).count
        ⟨BlockType.grass, 0, 0, 0⟩
      = ([⟨BlockType.grass, 0, 0, 0⟩] : List Block).count ⟨BlockType.grass, 0, 0, 0⟩ :=
  ⟨by decide,
   ((world_frame_properties [⟨BlockType.grass, 0, 0, 0⟩] 2 BlockType.stone 5 5 5).2.1
      (by decide)).1,
   (world_frame_properties [⟨BlockType.grass, 0, 0, 0⟩] 2 BlockType.stone 5 5 5).2.2.2.1
      ⟨BlockType.grass, 0, 0, 0⟩ (by decide),
   (world_frame_properties [⟨BlockType.grass, 0, 0, 0⟩] 2 BlockType.stone 5 5 5).2.2.2.2
      ⟨BlockType.grass, 0, 0, 0⟩ (by decide)⟩

/-- C2: the rendering order is the block collection sorted by
descending squared distance from the origin: it is a permutation of
the world, pairwise ordered by `dist2 b ≤ dist2 a`, and the sort is
stable — for every key value, the blocks with that squared distance
appear in exactly their original order. -/
theorem sortedWorld_spec (w : List Block) :
    (sortedWorld w).Perm w
    ∧ (sortedWorld w).Pairwise (fun a b => dist2 b ≤ dist2 a)
    ∧ ∀ d : ℤ, (sortedWorld w).filter (fun b => dist2 b == d)
        = w.filter (fun b => dist2 b == d) := by
  have htrans : ∀ (a b c : Block), depthLE a b → depthLE b c → depthLE a c := by
    intro a b c hab hbc
    simp only [depthLE, decide_eq_true_eq] at *
    exact le_trans hbc hab
  have htotal : ∀ (a b : Block), depthLE a b || depthLE b a := by
    intro a b
    simp only [depthLE, Bool.or_eq_true, decide_eq_true_eq]
    exact le_total _ _
  refine ⟨List.mergeSort_perm w depthLE, ?_, ?_⟩
  · have h := List.sorted_mergeSort htrans htotal w
    exact h.imp fun hab => by simpa [depthLE] using hab
  · intro d
    have hpair : (w.filter (fun b => dist2 b == d)).Pairwise
        (fun a b => depthLE a b = true) := by
      apply List.pairwise_of_forall_mem_list
      intro a ha b hb
      have hda : dist2 a = d := by simpa using (List.mem_filter.mp ha).2
      have hdb : dist2 b = d := by simpa using (List.mem_filter.mp hb).2
      simp [depthLE, hda, hdb]
    have hsub : (w.filter (fun b => dist2 b == d)).Sublist (List.mergeSort w depthLE) :=
      List.sublist_mergeSort htrans htotal hpair (List.filter_sublist w)
    have hsub2 : (w.filter (fun b => dist2 b == d)).Sublist
        ((List.mergeSort w depthLE).filter (fun b => dist2 b == d)) := by
      have h1 : (w.filter (fun b => dist2 b == d)).filter (fun b => dist2 b == d)
          = w.filter (fun b => dist2 b == d) :=
        List.filter_eq_self.mpr fun a ha => (List.mem_filter.mp ha).2
      have h2 := hsub.filter (fun b => dist2 b == d)
      rwa [h1] at h2
    have hlen : ((List.mergeSort w depthLE).filter (fun b => dist2 b == d)).length
        = (w.filter (fun b => dist2 b == d)).length :=
      ((List.mergeSort_perm w depthLE).filter (fun b => dist2 b == d)).length_eq
    exact (hsub2.eq_of_length hlen.symm).symm

/-- C1 (amended): for every block and camera rotation the projector
computes the centered world position (`px = x*S - C`, `py = -y*S`,
`pz = z*S - C` with S the tile size and C half the grid extent),
applies the yaw rotation by the y-angle in the x/z plane and then the
pitch rotation by the x-angle in the resulting y/z plane, translates
by the fixed viewport offset, and returns a paint-order key equal to
the floor of (the large constant 1000 minus the final depth coordinate
after both rotations). -/
theorem get3DPosition_pipeline (rotx roty : ℝ) (x y z : ℤ) :
    (get3DPosition rotx roty x y z).1 = (specProject rotx roty x y z).1
    ∧ (get3DPosition rotx roty x y z).2.1 = (specProject rotx roty x y z).2.1
    ∧ (get3DPosition rotx roty x y z).2.2
        = ⌊(1000 : ℝ) - (specProject rotx roty x y z).2.2⌋ :=
  ⟨rfl, rfl, rfl⟩

/-- Counterexample for C1 as stated: at camera rotation (rx, ry) =
(0, 60) and block (0, 0, 0) the quantity 1000 minus the final depth
coordinate equals 1080 − 80·√3, which is irrational, so the integer
paint-order key the projector returns (its floor) is not equal to it. -/
theorem get3DPosition_key_counterexample :
    ((get3DPosition 0 60 0 0 0).2.2 : ℝ)
      ≠ (1000 : ℝ) - (specProject 0 60 0 0 0).2.2 := by
  have hY : (60 : ℝ) * Real.pi / 180 = Real.pi / 3 := by ring
  have hX : (0 : ℝ) * Real.pi / 180 = 0 := by ring
  have hdepth : (specProject 0 60 0 0 0).2.2 = 80 * Real.sqrt 3 - 80 := by
    simp only [specProject, yawRot, pitchRot, degToRad, WORLD_SIZE, BLOCK_SIZE,
      hY, hX, Real.cos_pi_div_three, Real.sin_pi_div_three, Real.cos_zero,
      Real.sin_zero]
    push_cast
    ring
  have hkey : (get3DPosition 0 60 0 0 0).2.2
      = ⌊(1000 : ℝ) - (specProject 0 60 0 0 0).2.2⌋ := rfl
  rw [hkey, hdepth]
  have hirr : Irrational ((1000 : ℝ) - (80 * Real.sqrt 3 - 80)) := by
    have h3 : Irrational (Real.sqrt 3) := by
      simpa using (Nat.prime_three).irrational_sqrt
    have h80 : Irrational (80 * Real.sqrt 3) := by
      simpa using h3.nat_mul (by norm_num : (80 : ℕ) ≠ 0)
    have h2 : Irrational (((1080 : ℤ) : ℝ) - 80 * Real.sqrt 3) := h80.int_sub 1080
    have heq : (1000 : ℝ) - (80 * Real.sqrt 3 - 80)
        = ((1080 : ℤ) : ℝ) - 80 * Real.sqrt 3 := by
      push_cast
      ring
    rwa [heq]
  exact fun h => hirr.ne_int ⌊(1000 : ℝ) - (80 * Real.sqrt 3 - 80)⌋ h.symm

end Voxel
